import Mathlib

/-!
Shallow embedding of the server core of CHATHUB (`src/app.py`) and proofs
about it.  The SQLite-backed message store is modelled as lists of rows kept
in rowid (insertion) order, with `AUTOINCREMENT` counters carried explicitly;
the in-memory presence dictionaries (`user_to_sid` / `sid_to_user`) are
modelled as insertion-ordered association lists with Python-`dict` update
semantics.  Each definition cites the line range of `app.py` it translates.
-/

namespace Chathub

/-- A row of the `messages` table (app.py lines 60-69).  `room` and
`receiver` are nullable columns; the `message` text is always supplied by
the handlers (default `""`). -/
structure Message where
  id : Nat
  room : Option String
  sender : String
  receiver : Option String
  message : String
  image : Option String
  reply_to : Option Nat
  timestamp : Nat
  deriving DecidableEq, Repr

/-- A row of the `reactions` table (app.py lines 70-75). -/
structure Reaction where
  id : Nat
  message_id : Nat
  username : String
  emoji : String
  deriving DecidableEq, Repr

/-- A row of the `pins` table (app.py lines 76-80). -/
structure Pin where
  id : Nat
  message_id : Nat
  room : String
  deriving DecidableEq, Repr

/-- The durable store: the three tables, each kept in rowid order, plus the
`AUTOINCREMENT` sequence counters (SQLite assigns max-so-far + 1 and never
reuses the id of a deleted row). -/
structure Store where
  messages : List Message
  reactions : List Reaction
  pins : List Pin
  nextMsgId : Nat
  nextReactionId : Nat
  nextPinId : Nat
  deriving DecidableEq, Repr

def emptyStore : Store := ⟨[], [], [], 1, 1, 1⟩

/-! ### Python dict model (insertion-ordered association lists) -/

/-- `d[k] = v`: update in place if the key exists, else append. -/
def dictSet (l : List (String × String)) (k v : String) : List (String × String) :=
  if l.any (fun kv => kv.1 == k) then
    l.map (fun kv => if kv.1 == k then (k, v) else kv)
  else
    l ++ [(k, v)]

/-- `d.get(k)`: first (and only) binding of `k`, if any. -/
def dictGet (l : List (String × String)) (k : String) : Option String :=
  (l.find? (fun kv => kv.1 == k)).map (fun kv => kv.2)

/-- `d.pop(k, None)`: drop the binding of `k`, keep everything else. -/
def dictPop (l : List (String × String)) (k : String) : List (String × String) :=
  l.filter (fun kv => !(kv.1 == k))

/-- The two in-memory presence maps (app.py lines 227-229). -/
structure Presence where
  user_to_sid : List (String × String)
  sid_to_user : List (String × String)
  deriving DecidableEq, Repr

def emptyPresence : Presence := ⟨[], []⟩

/-- `set_online` of the spec: the presence mutation performed by
`on_join_room` (app.py lines 604-605): `user_to_sid[username] = request.sid;
sid_to_user[request.sid] = username`. -/
def set_online (p : Presence) (username sid : String) : Presence :=
  { user_to_sid := dictSet p.user_to_sid username sid
    sid_to_user := dictSet p.sid_to_user sid username }

/-- `set_offline` of the spec: the presence mutation performed by
`on_disconnect` (app.py lines 741-745): `user = sid_to_user.get(sid);
if user: user_to_sid.pop(user, None); sid_to_user.pop(sid, None)`.
The Python truthiness test skips the pops when `user` is `None` or `""`. -/
def set_offline (p : Presence) (sid : String) : Presence :=
  match dictGet p.sid_to_user sid with
  | none => p
  | some u =>
      if u = "" then p
      else { user_to_sid := dictPop p.user_to_sid u
             sid_to_user := dictPop p.sid_to_user sid }

/-- `lookup_connection` of the spec: `user_to_sid.get(username)`. -/
def lookup_connection (p : Presence) (username : String) : Option String :=
  dictGet p.user_to_sid username

/-! ### dict lemmas -/

theorem find?_map_setFn_ne (l : List (String × String)) (k v k' : String)
    (h : k' ≠ k) :
    (l.map (fun kv => if kv.1 == k then (k, v) else kv)).find?
        (fun kv => kv.1 == k')
      = l.find? (fun kv => kv.1 == k') := by
  induction l with
  | nil => rfl
  | cons kv t ih =>
    simp only [List.map_cons]
    by_cases hk : (kv.1 == k) = true
    · have hkeq : kv.1 = k := by simpa using hk
      have h1 : ¬ (((k, v).1 == k') = true) := by
        simp only [beq_iff_eq]
        exact fun he => h he.symm
      have h2 : ¬ ((kv.1 == k') = true) := by
        simp only [beq_iff_eq, hkeq]
        exact fun he => h he.symm
      rw [if_pos hk,
        @List.find?_cons_of_neg _ (fun kv => kv.1 == k') (k, v) _ h1,
        @List.find?_cons_of_neg _ (fun kv => kv.1 == k') kv t h2]
      exact ih
    · rw [if_neg hk]
      by_cases hp : (kv.1 == k') = true
      · rw [@List.find?_cons_of_pos _ (fun kv => kv.1 == k') kv _ hp,
          @List.find?_cons_of_pos _ (fun kv => kv.1 == k') kv t hp]
      · rw [@List.find?_cons_of_neg _ (fun kv => kv.1 == k') kv _ hp,
          @List.find?_cons_of_neg _ (fun kv => kv.1 == k') kv t hp]
        exact ih

theorem dictGet_set_eq (l : List (String × String)) (k v : String) :
    dictGet (dictSet l k v) k = some v := by
  unfold dictSet
  by_cases ha : l.any (fun kv => kv.1 == k) = true
  · rw [if_pos ha]
    induction l with
    | nil => simp at ha
    | cons kv t ih =>
      by_cases hk : (kv.1 == k) = true
      · unfold dictGet
        simp only [List.map_cons, if_pos hk]
        rw [@List.find?_cons_of_pos _ (fun kv => kv.1 == k) (k, v) _
          (show ((k, v).1 == k) = true by simp)]
        rfl
      · have ha' : t.any (fun kv => kv.1 == k) = true := by
          simpa [List.any_cons, hk] using ha
        unfold dictGet at ih ⊢
        simp only [List.map_cons, if_neg hk]
        rw [@List.find?_cons_of_neg _ (fun kv => kv.1 == k) kv _ hk]
        exact ih ha'
  · rw [if_neg ha]
    unfold dictGet
    rw [List.find?_append]
    have hnone : l.find? (fun kv => kv.1 == k) = none := by
      rw [List.find?_eq_none]
      intro x hx hb
      exact ha (List.any_eq_true.mpr ⟨x, hx, hb⟩)
    rw [hnone]
    have hfind : List.find? (fun kv => kv.1 == k) [(k, v)] = some (k, v) :=
      @List.find?_cons_of_pos _ (fun kv => kv.1 == k) (k, v) [] (by simp)
    rw [hfind]
    rfl

theorem dictGet_set_ne (l : List (String × String)) (k v k' : String)
    (h : k' ≠ k) :
    dictGet (dictSet l k v) k' = dictGet l k' := by
  unfold dictGet dictSet
  by_cases ha : l.any (fun kv => kv.1 == k) = true
  · rw [if_pos ha, find?_map_setFn_ne l k v k' h]
  · rw [if_neg ha, List.find?_append]
    have h1 : List.find? (fun kv => kv.1 == k') [(k, v)] = none := by
      have hne : ¬ (((k, v).1 == k') = true) := by
        simp only [beq_iff_eq]
        exact fun he => h he.symm
      rw [@List.find?_cons_of_neg _ (fun kv => kv.1 == k') (k, v) [] hne]
      rfl
    rw [h1, Option.or_none]

theorem dictGet_pop_eq (l : List (String × String)) (k : String) :
    dictGet (dictPop l k) k = none := by
  unfold dictGet dictPop
  have hnone : (l.filter (fun kv => !(kv.1 == k))).find? (fun kv => kv.1 == k)
      = none := by
    rw [List.find?_eq_none]
    intro x hx hb
    have := List.of_mem_filter hx
    rw [hb] at this
    simp at this
  rw [hnone]
  rfl

theorem dictGet_pop_ne (l : List (String × String)) (k k' : String)
    (h : k' ≠ k) :
    dictGet (dictPop l k) k' = dictGet l k' := by
  unfold dictGet dictPop
  congr 1
  induction l with
  | nil => rfl
  | cons kv t ih =>
    by_cases hk : (kv.1 == k) = true
    · have hkeq : kv.1 = k := by simpa using hk
      have h2 : ¬ ((kv.1 == k') = true) := by
        simp only [beq_iff_eq, hkeq]
        exact fun he => h he.symm
      rw [List.filter_cons_of_neg (by simp [hk]),
        @List.find?_cons_of_neg _ (fun kv => kv.1 == k') kv t h2]
      exact ih
    · rw [List.filter_cons_of_pos (by simp [hk])]
      by_cases hp : (kv.1 == k') = true
      · rw [@List.find?_cons_of_pos _ (fun kv => kv.1 == k') kv _ hp,
          @List.find?_cons_of_pos _ (fun kv => kv.1 == k') kv t hp]
      · rw [@List.find?_cons_of_neg _ (fun kv => kv.1 == k') kv _ hp,
          @List.find?_cons_of_neg _ (fun kv => kv.1 == k') kv t hp]
        exact ih

/-! ### Sorting by a Nat key (models SQL ORDER BY on the unique id column) -/

def insertAscBy {α : Type _} (key : α → Nat) (a : α) : List α → List α
  | [] => [a]
  | b :: l => if key a ≤ key b then a :: b :: l else b :: insertAscBy key a l

def sortAscBy {α : Type _} (key : α → Nat) : List α → List α
  | [] => []
  | a :: l => insertAscBy key a (sortAscBy key l)

def insertDescBy {α : Type _} (key : α → Nat) (a : α) : List α → List α
  | [] => [a]
  | b :: l => if key b ≤ key a then a :: b :: l else b :: insertDescBy key a l

def sortDescBy {α : Type _} (key : α → Nat) : List α → List α
  | [] => []
  | a :: l => insertDescBy key a (sortDescBy key l)

/-! ### Store operations (app.py 135-225) -/

/-- `persist_message` (app.py 135-146): INSERT with the next AUTOINCREMENT
id and the current timestamp `ts`, then SELECT the row back by `lastrowid`. -/
def persist_message (s : Store) (room : Option String) (sender : String)
    (receiver : Option String) (message_text : String)
    (image_dataurl : Option String) (reply_to : Option Nat) (ts : Nat) :
    Store × Option Message :=
  let row : Message :=
    { id := s.nextMsgId, room := room, sender := sender, receiver := receiver
      message := message_text, image := image_dataurl, reply_to := reply_to
      timestamp := ts }
  let s' : Store :=
    { s with messages := s.messages ++ [row], nextMsgId := s.nextMsgId + 1 }
  (s', s'.messages.find? (fun m => m.id == row.id))

/-- The WHERE clause of `load_room_messages` (app.py 150):
`room=? AND receiver IS NULL`. -/
def roomFilter (l : List Message) (room : String) : List Message :=
  l.filter (fun m => m.room == some room && m.receiver == none)

/-- `load_room_messages` (app.py 148-152): room messages in ascending id
order, capped at `limit` (all callers use the default 500). -/
def load_room_messages (s : Store) (room : String) (limit : Nat) : List Message :=
  (sortAscBy (fun m => m.id) (roomFilter s.messages room)).take limit

/-- The WHERE clause of `load_dm_history` (app.py 157):
`(sender=user AND receiver=other) OR (sender=other AND receiver=user)`. -/
def dmFilter (l : List Message) (user other : String) : List Message :=
  l.filter (fun m =>
    (m.sender == user && m.receiver == some other) ||
    (m.sender == other && m.receiver == some user))

/-- `load_dm_history` (app.py 154-161): both directions of the pair, in
ascending id order, capped at `limit` (all callers use the default 500). -/
def load_dm_history (s : Store) (user other : String) (limit : Nat) :
    List Message :=
  (sortAscBy (fun m => m.id) (dmFilter s.messages user other)).take limit

/-- `edit_message` (app.py 163-173): succeeds only for the sender, silent
`none` otherwise (also when the id does not exist). -/
def edit_message (s : Store) (mid : Nat) (username new_text : String) :
    Store × Option Message :=
  match s.messages.find? (fun m => m.id == mid) with
  | none => (s, none)
  | some row =>
      if row.sender ≠ username then (s, none)
      else
        let s' : Store :=
          { s with messages := s.messages.map (fun m =>
              if m.id == mid then { m with message := new_text } else m) }
        (s', s'.messages.find? (fun m => m.id == mid))

/-- `delete_message` (app.py 175-185): same authorization rule; deletes the
message row and all reaction rows for that message id. -/
def delete_message (s : Store) (mid : Nat) (username : String) : Store × Bool :=
  match s.messages.find? (fun m => m.id == mid) with
  | none => (s, false)
  | some row =>
      if row.sender ≠ username then (s, false)
      else
        ({ s with
            messages := s.messages.filter (fun m => !(m.id == mid))
            reactions := s.reactions.filter (fun r => !(r.message_id == mid)) },
         true)

/-- `toggle_reaction` (app.py 187-198): delete the existing `(mid, user,
emoji)` row if present (by its rowid), else insert a fresh one.  Note: no
existence check on `mid`. -/
def toggle_reaction (s : Store) (mid : Nat) (username emoji : String) :
    Store × Bool :=
  match s.reactions.find? (fun r =>
      r.message_id == mid && r.username == username && r.emoji == emoji) with
  | some existing =>
      ({ s with reactions := s.reactions.filter (fun r => !(r.id == existing.id)) },
       false)
  | none =>
      ({ s with
          reactions := s.reactions ++
            [{ id := s.nextReactionId, message_id := mid
               username := username, emoji := emoji }]
          nextReactionId := s.nextReactionId + 1 },
       true)

/-- `reactions_summary` (app.py 200-204): the emoji → COUNT(*) dict of the
GROUP BY, as an association list keyed by first occurrence. -/
def reactions_summary (s : Store) (mid : Nat) : List (String × Nat) :=
  let rs := s.reactions.filter (fun r => r.message_id == mid)
  ((rs.map (fun r => r.emoji)).eraseDups).map
    (fun e => (e, (rs.filter (fun r => r.emoji == e)).length))

/-- `pin_message` (app.py 206-212): inserts the pin row unconditionally,
then selects the pinned message (`none` if it does not exist). -/
def pin_message (s : Store) (mid : Nat) (room : String) : Store × Option Message :=
  let s' : Store :=
    { s with
        pins := s.pins ++ [{ id := s.nextPinId, message_id := mid, room := room }]
        nextPinId := s.nextPinId + 1 }
  (s', s'.messages.find? (fun m => m.id == mid))

/-- `get_pinned` (app.py 214-218): JOIN pins with messages (`m.id` is the
primary key, so each pin matches at most one message, and a dangling pin
contributes no row), most recent pin first, LIMIT 50. -/
def get_pinned (s : Store) (room : String) : List Message :=
  ((sortDescBy (fun p => p.id) (s.pins.filter (fun p => p.room == room))).filterMap
    (fun p => s.messages.find? (fun m => m.id == p.message_id))).take 50

/-! ### SQLite LIKE (used by `search_room`) -/

/-- SQLite `LIKE` compares ASCII letters case-insensitively (`Char.toLower`
folds exactly the ASCII range, as SQLite does). -/
def charEqCI (c d : Char) : Bool := c.toLower == d.toLower

/-- Whether some suffix of the list satisfies `f` (the `%` wildcard). -/
def anySuffix (f : List Char → Bool) : List Char → Bool
  | [] => f []
  | d :: sl => f (d :: sl) || anySuffix f sl

/-- SQLite `LIKE` pattern matching: `%` matches any sequence, `_` matches
any single character, any other character matches ASCII-case-insensitively. -/
def likeMatch : List Char → List Char → Bool
  | [], sl => sl.isEmpty
  | c :: pl, sl =>
    if c = '%' then anySuffix (fun t => likeMatch pl t) sl
    else
      match sl with
      | [] => false
      | d :: sl' => (if c = '_' then true else charEqCI c d) && likeMatch pl sl'

/-- `search_room` (app.py 220-225): `room=? AND message LIKE '%q%'
ORDER BY id DESC LIMIT 200`; the pattern is f-string interpolation, so
wildcard characters inside `q` keep their LIKE meaning. -/
def search_room (s : Store) (room q : String) : List Message :=
  (sortDescBy (fun m => m.id)
    (s.messages.filter (fun m =>
      m.room == some room &&
      likeMatch ('%' :: q.toList ++ ['%']) m.message.toList))).take 200

/-! ### Socket handlers (app.py 586-755) -/

/-- Outbound socket events relevant to the claims (payload fields that no
claim inspects, e.g. the attached avatar, are not modelled). -/
inductive Ev where
  | new_message_room (room : String) (m : Message)
  | message_room (room : String) (m : Message)
  | new_message_dm (target_sid : String) (m : Message)
  | update_message (m : Message)
  | delete_message (id : Nat)
  | reactions_update (message_id : Nat) (reactions : List (String × Nat))
  | pinned_message (m : Message)
  | pinned_list (ms : List Message)
  | load_room_history (target_sid : String) (ms : List Message)
  deriving DecidableEq, Repr

/-- `on_send_message` (app.py 626-640): falsy (missing or empty)
`username`/`room` aborts; on success both the `new_message_room` and the
`message` events are broadcast to the room. -/
def on_send_message (s : Store) (username room message_text : String)
    (image : Option String) (reply_to : Option Nat) (ts : Nat) :
    Store × List Ev :=
  if username = "" ∨ room = "" then (s, [])
  else
    match persist_message s (some room) username none message_text image reply_to ts with
    | (s', some m) => (s', [Ev.new_message_room room m, Ev.message_room room m])
    | (s', none) => (s', [])

/-- `on_send_dm` (app.py 692-708): persists first, then unicasts to the
recipient's sid if one is registered, and always echoes to the sender's sid. -/
def on_send_dm (s : Store) (p : Presence) (sid : String)
    (sender toUser message_text : String) (image : Option String)
    (reply_to : Option Nat) (ts : Nat) : Store × List Ev :=
  if sender = "" ∨ toUser = "" then (s, [])
  else
    match persist_message s none sender (some toUser) message_text image reply_to ts with
    | (s', some m) =>
        (s',
          (match dictGet p.user_to_sid toUser with
           | some rsid => [Ev.new_message_dm rsid m]
           | none => []) ++ [Ev.new_message_dm sid m])
    | (s', none) => (s', [])

/-- `on_edit_message` (app.py 642-649): the requester is resolved via
`sid_to_user` and may be absent (a never-identified connection); a `None`
requester can never equal the stored sender, so the edit is refused. -/
def on_edit_message (s : Store) (requester : Option String) (mid : Nat)
    (new_text : String) : Store × List Ev :=
  match requester with
  | none => (s, [])
  | some u =>
      match edit_message s mid u new_text with
      | (s', some m) => (s', [Ev.update_message m])
      | (s', none) => (s', [])

/-- `on_delete_message` (app.py 651-657): as for edit, an unidentified
requester (`sid_to_user` miss, i.e. Python `None`) can never match the
stored sender, so nothing changes and nothing is emitted. -/
def on_delete_message (s : Store) (requester : Option String) (mid : Nat) :
    Store × List Ev :=
  match requester with
  | none => (s, [])
  | some u =>
      match delete_message s mid u with
      | (s', true) => (s', [Ev.delete_message mid])
      | (s', false) => (s', [])

/-- `on_react` (app.py 659-666): toggles, then always broadcasts the fresh
summary, whether or not the message id exists. -/
def on_react (s : Store) (mid : Nat) (username emoji : String) :
    Store × List Ev :=
  let r := toggle_reaction s mid username emoji
  (r.1, [Ev.reactions_update mid (reactions_summary r.1 mid)])

/-- `on_pin_message` (app.py 674-682): the pin row is always inserted; the
two broadcasts happen only when the pinned message exists. -/
def on_pin_message (s : Store) (mid : Nat) (room : String) : Store × List Ev :=
  match pin_message s mid room with
  | (s', some m) => (s', [Ev.pinned_message m, Ev.pinned_list (get_pinned s' room)])
  | (s', none) => (s', [])

/-- `on_join_room` (app.py 598-618): store and presence effects plus the
claim-relevant emissions (the user-list and rooms-list broadcasts carry no
claim-relevant payload and are not modelled; the system message always
persists, so the `none` branch is unreachable in a well-formed store). -/
def on_join_room (s : Store) (p : Presence) (sid username room : String)
    (ts : Nat) : Store × Presence × List Ev :=
  if username = "" then (s, p, [])
  else
    let p' := set_online p username sid
    let history := load_room_messages s room 500
    match persist_message s (some room) "System" none
        (username ++ " joined " ++ room) none none ts with
    | (s', some sys_msg) =>
        (s', p', [Ev.load_room_history sid history, Ev.new_message_room room sys_msg])
    | (s', none) => (s', p', [Ev.load_room_history sid history])

/-- `on_disconnect` (app.py 739-746): exactly `set_offline` on the two maps
(the trailing user-list broadcast carries no claim-relevant payload). -/
def on_disconnect (p : Presence) (sid : String) : Presence :=
  set_offline p sid

/-- The startup block (app.py 749-755): insert the welcome message into
`Lobby` when the messages table is empty. -/
def startup_welcome (s : Store) (ts : Nat) : Store :=
  if s.messages.length == 0 then
    (persist_message s (some "Lobby") "System" none "Welcome to CHATHUB" none none ts).1
  else s

/-- Well-formedness of a store reachable from `init_db`: each table is in
strictly-ascending rowid order (ids are PRIMARY KEY AUTOINCREMENT) and every
id is below the table's sequence counter. -/
def Store.WF (s : Store) : Prop :=
  s.messages.Pairwise (fun a b => a.id < b.id) ∧
  (∀ m ∈ s.messages, m.id < s.nextMsgId) ∧
  s.reactions.Pairwise (fun a b => a.id < b.id) ∧
  (∀ r ∈ s.reactions, r.id < s.nextReactionId) ∧
  s.pins.Pairwise (fun a b => a.id < b.id) ∧
  (∀ p ∈ s.pins, p.id < s.nextPinId)

instance (s : Store) : Decidable s.WF := by
  unfold Store.WF
  infer_instance

/-! ### C1: presence last-connection-wins and the stale disconnect -/

/-- C1 (counterexample): the claimed stale-disconnect no-op is false on the
code.  After `alice` identifies on `c1` and then on `c2`, the disconnect of
the stale connection `c1` still finds `sid_to_user[c1] = alice` and pops
`user_to_sid[alice]` — which is the *newer* mapping — so the lookup yields
`none`, not `c2`. -/
theorem c1_stale_disconnect_counterexample :
    ¬ (lookup_connection
        (set_offline
          (set_online (set_online emptyPresence "alice" "c1") "alice" "c2")
          "c1")
        "alice" = some "c2") := by decide

/-- C1 (amended): last-connection-wins holds (`lookup_connection U = C2`
after the two `set_online` calls), but the stale disconnect is not a no-op:
`set_offline C1` pops the newer mapping, leaving `lookup_connection U = none`. -/
theorem c1_presence_last_wins_stale_disconnect_removes
    (p : Presence) (U C1 C2 : String) (hU : U ≠ "") (hC : C1 ≠ C2) :
    lookup_connection (set_online (set_online p U C1) U C2) U = some C2 ∧
    lookup_connection
        (set_offline (set_online (set_online p U C1) U C2) C1) U = none := by
  constructor
  · unfold lookup_connection set_online
    exact dictGet_set_eq _ U C2
  · have hsid : dictGet (set_online (set_online p U C1) U C2).sid_to_user C1
        = some U := by
      unfold set_online
      rw [dictGet_set_ne _ _ _ _ hC]
      exact dictGet_set_eq _ C1 U
    unfold set_offline
    rw [hsid]
    simp only [if_neg hU]
    unfold lookup_connection
    exact dictGet_pop_eq _ U

/-- C1 witness: the amended theorem applied at a concrete presence state. -/
theorem c1_witness :
    ("alice" : String) ≠ "" ∧ ("c1" : String) ≠ "c2" ∧
    (lookup_connection
        (set_online (set_online emptyPresence "alice" "c1") "alice" "c2")
        "alice" = some "c2" ∧
     lookup_connection
        (set_offline
          (set_online (set_online emptyPresence "alice" "c1") "alice" "c2")
          "c1") "alice" = none) :=
  ⟨by decide, by decide,
    c1_presence_last_wins_stale_disconnect_removes emptyPresence
      "alice" "c1" "c2" (by decide) (by decide)⟩

/-! ### Shared store lemmas -/

/-- On a list whose keys are strictly increasing, `find?` by the key of a
member returns exactly that member (uniqueness of the primary key). -/
theorem find?_key_eq_of_pairwise {α : Type _} (key : α → Nat) (l : List α)
    (M : α) (hp : l.Pairwise (fun a b => key a < key b)) (hm : M ∈ l) :
    l.find? (fun a => key a == key M) = some M := by
  induction l with
  | nil => cases hm
  | cons a t ih =>
    rcases List.mem_cons.mp hm with rfl | hmt
    · exact @List.find?_cons_of_pos _ (fun x => key x == key M) M t (by simp)
    · have hlt : key a < key M := (List.pairwise_cons.mp hp).1 M hmt
      have hne : ¬ ((key a == key M) = true) := by
        simp only [beq_iff_eq]
        omega
      rw [@List.find?_cons_of_neg _ (fun x => key x == key M) a t hne]
      exact ih (List.pairwise_cons.mp hp).2 hmt

/-- Concrete one-message store used by several witnesses. -/
def sampleMsg : Message :=
  { id := 1, room := some "Lobby", sender := "alice", receiver := none
    message := "hi", image := none, reply_to := none, timestamp := 5 }

def sampleStore : Store := ⟨[sampleMsg], [], [], 2, 1, 1⟩

/-! ### C3: unauthorized edit/delete is a silent no-op -/

/-- C3: for every stored message M and user U ≠ M.sender, `edit_message`
returns `none`, `delete_message` returns `false`, the store (message body,
all other fields, and all reactions) is unchanged, and the corresponding
handlers emit no event. -/
theorem c3_authorization_silent_noop (s : Store) (M : Message) (U t : String)
    (hWF : s.WF) (hM : M ∈ s.messages) (hU : U ≠ M.sender) :
    edit_message s M.id U t = (s, none) ∧
    delete_message s M.id U = (s, false) ∧
    on_edit_message s (some U) M.id t = (s, []) ∧
    on_delete_message s (some U) M.id = (s, []) := by
  have hfind : s.messages.find? (fun m => m.id == M.id) = some M :=
    find?_key_eq_of_pairwise (fun m => m.id) s.messages M hWF.1 hM
  have hsender : M.sender ≠ U := fun he => hU he.symm
  have hedit : edit_message s M.id U t = (s, none) := by
    simp only [edit_message, hfind]
    rw [if_pos hsender]
  have hdel : delete_message s M.id U = (s, false) := by
    simp only [delete_message, hfind]
    rw [if_pos hsender]
  refine ⟨hedit, hdel, ?_, ?_⟩
  · simp only [on_edit_message, hedit]
  · simp only [on_delete_message, hdel]

/-- C3 witness: concrete store, `bob` tries to edit and delete `alice`'s
message. -/
theorem c3_witness :
    sampleStore.WF ∧ sampleMsg ∈ sampleStore.messages ∧
    ("bob" : String) ≠ sampleMsg.sender ∧
    (edit_message sampleStore sampleMsg.id "bob" "zz" = (sampleStore, none) ∧
     delete_message sampleStore sampleMsg.id "bob" = (sampleStore, false) ∧
     on_edit_message sampleStore (some "bob") sampleMsg.id "zz" = (sampleStore, []) ∧
     on_delete_message sampleStore (some "bob") sampleMsg.id = (sampleStore, [])) :=
  ⟨by decide, by decide, by decide,
    c3_authorization_silent_noop sampleStore sampleMsg "bob" "zz"
      (by decide) (by decide) (by decide)⟩

/-! ### C4: reaction toggle round-trip -/

/-- C4: starting from a state where `(m, u, e)` is absent, toggling twice
returns `true` then `false`, and restores the reactions table (hence the
reaction counts) exactly. -/
theorem c4_reaction_toggle_roundtrip (s : Store) (m : Nat) (u e : String)
    (hWF : s.WF)
    (habs : ∀ r ∈ s.reactions,
      ¬(r.message_id = m ∧ r.username = u ∧ r.emoji = e)) :
    (toggle_reaction s m u e).2 = true ∧
    (toggle_reaction (toggle_reaction s m u e).1 m u e).2 = false ∧
    (toggle_reaction (toggle_reaction s m u e).1 m u e).1.reactions
      = s.reactions ∧
    reactions_summary (toggle_reaction (toggle_reaction s m u e).1 m u e).1 m
      = reactions_summary s m := by
  set pred : Reaction → Bool :=
    fun r => r.message_id == m && r.username == u && r.emoji == e with hpred
  set newr : Reaction :=
    { id := s.nextReactionId, message_id := m, username := u, emoji := e }
    with hnewr
  have h1 : s.reactions.find? pred = none := by
    rw [List.find?_eq_none]
    intro r hr hb
    rw [hpred] at hb
    simp only [Bool.and_eq_true, beq_iff_eq] at hb
    exact habs r hr ⟨hb.1.1, hb.1.2, hb.2⟩
  have ht1 : toggle_reaction s m u e =
      ({ s with reactions := s.reactions ++ [newr]
                nextReactionId := s.nextReactionId + 1 }, true) := by
    simp only [toggle_reaction]
    rw [← hpred, h1]
  have h2 : (s.reactions ++ [newr]).find? pred = some newr := by
    rw [List.find?_append, h1]
    have : List.find? pred [newr] = some newr := by
      apply @List.find?_cons_of_pos _ pred newr []
      rw [hpred, hnewr]
      simp
    rw [this]
    rfl
  have hfilter : (s.reactions ++ [newr]).filter (fun r => !(r.id == newr.id))
      = s.reactions := by
    rw [List.filter_append]
    have hl : s.reactions.filter (fun r => !(r.id == newr.id)) = s.reactions := by
      rw [List.filter_eq_self]
      intro r hr
      have hrb : r.id < s.nextReactionId := hWF.2.2.2.1 r hr
      rw [hnewr]
      simp only [Bool.not_eq_eq_eq_not, Bool.not_true, beq_eq_false_iff_ne, ne_eq]
      omega
    have hr : List.filter (fun r => !(r.id == newr.id)) [newr] = [] := by
      simp
    rw [hl, hr, List.append_nil]
  have ht2 : toggle_reaction
      ({ s with reactions := s.reactions ++ [newr]
                nextReactionId := s.nextReactionId + 1 }) m u e =
      ({ s with reactions := s.reactions
                nextReactionId := s.nextReactionId + 1 }, false) := by
    simp only [toggle_reaction]
    rw [← hpred, h2]
    simp only [hfilter]
  refine ⟨?_, ?_, ?_, ?_⟩
  · rw [ht1]
  · rw [ht1]
    simp only [ht2]
  · rw [ht1]
    simp only [ht2]
  · rw [ht1]
    simp only [ht2]
    rfl

/-- C4 witness: toggling `(1, bob, up)` twice on the sample store. -/
theorem c4_witness :
    sampleStore.WF ∧
    (∀ r ∈ sampleStore.reactions,
      ¬(r.message_id = 1 ∧ r.username = "bob" ∧ r.emoji = "up")) ∧
    ((toggle_reaction sampleStore 1 "bob" "up").2 = true ∧
     (toggle_reaction (toggle_reaction sampleStore 1 "bob" "up").1 1 "bob" "up").2
       = false ∧
     (toggle_reaction (toggle_reaction sampleStore 1 "bob" "up").1 1 "bob" "up").1.reactions
       = sampleStore.reactions ∧
     reactions_summary
       (toggle_reaction (toggle_reaction sampleStore 1 "bob" "up").1 1 "bob" "up").1 1
       = reactions_summary sampleStore 1) :=
  ⟨by decide, by decide,
    c4_reaction_toggle_roundtrip sampleStore 1 "bob" "up" (by decide) (by decide)⟩

/-! ### C2: operations on a nonexistent message id -/

/-- C2 (counterexample): react on a nonexistent message id is not a no-op:
on the empty store it inserts a dangling reaction row (store changed) and
broadcasts a `reactions_update` carrying a count of one, contradicting the
claimed unchanged-store / zero-count / no-broadcast behavior. -/
theorem c2_notfound_counterexample :
    ¬ ((on_react emptyStore 1 "u" "x").1 = emptyStore ∧
       (on_react emptyStore 1 "u" "x").2 = []) := by decide

/-- C2 (amended): with `mid` absent from the store (and no dangling
reactions on it): `edit` and `delete` are silent no-ops returning
`none`/`false` with no broadcast; `react` is not a no-op — it inserts a
dangling reaction row, returns present, and broadcasts count one; `pin`
inserts a dangling pin row but reports failure and emits nothing.  All
four are total, so no hard error is raised. -/
theorem c2_notfound_semantics (s : Store) (mid : Nat) (u e t room : String)
    (habs : ∀ m ∈ s.messages, m.id ≠ mid)
    (hnoreact : ∀ r ∈ s.reactions, r.message_id ≠ mid) :
    edit_message s mid u t = (s, none) ∧
    on_edit_message s (some u) mid t = (s, []) ∧
    delete_message s mid u = (s, false) ∧
    on_delete_message s (some u) mid = (s, []) ∧
    on_react s mid u e =
      ({ s with
          reactions := s.reactions ++
            [{ id := s.nextReactionId, message_id := mid
               username := u, emoji := e }]
          nextReactionId := s.nextReactionId + 1 },
       [Ev.reactions_update mid [(e, 1)]]) ∧
    on_pin_message s mid room =
      ({ s with
          pins := s.pins ++ [{ id := s.nextPinId, message_id := mid, room := room }]
          nextPinId := s.nextPinId + 1 },
       []) := by
  have hfind : s.messages.find? (fun m => m.id == mid) = none := by
    rw [List.find?_eq_none]
    intro x hx hb
    exact habs x hx (by simpa using hb)
  have hedit : edit_message s mid u t = (s, none) := by
    simp only [edit_message, hfind]
  have hdel : delete_message s mid u = (s, false) := by
    simp only [delete_message, hfind]
  have hrfind : s.reactions.find? (fun r =>
      r.message_id == mid && r.username == u && r.emoji == e) = none := by
    rw [List.find?_eq_none]
    intro r hr hb
    simp only [Bool.and_eq_true, beq_iff_eq] at hb
    exact hnoreact r hr hb.1.1
  have ht : toggle_reaction s mid u e =
      ({ s with
          reactions := s.reactions ++ [(⟨s.nextReactionId, mid, u, e⟩ : Reaction)],
          nextReactionId := s.nextReactionId + 1 }, true) := by
    simp only [toggle_reaction, hrfind]
  have hfl : (s.reactions ++ [(⟨s.nextReactionId, mid, u, e⟩ : Reaction)]).filter
        (fun r => r.message_id == mid)
      = [(⟨s.nextReactionId, mid, u, e⟩ : Reaction)] := by
    rw [List.filter_append]
    have h0 : s.reactions.filter (fun r => r.message_id == mid) = [] := by
      rw [List.filter_eq_nil_iff]
      intro r hr
      simpa using hnoreact r hr
    rw [h0]
    simp
  have hsum : reactions_summary
      ({ s with
          reactions := s.reactions ++ [(⟨s.nextReactionId, mid, u, e⟩ : Reaction)],
          nextReactionId := s.nextReactionId + 1 }) mid = [(e, 1)] := by
    simp only [reactions_summary]
    rw [hfl]
    rw [show (([(⟨s.nextReactionId, mid, u, e⟩ : Reaction)].map
      (fun r => r.emoji)).eraseDups) = [e] from rfl]
    simp
  refine ⟨hedit, ?_, hdel, ?_, ?_, ?_⟩
  · simp only [on_edit_message, hedit]
  · simp only [on_delete_message, hdel]
  · simp only [on_react, ht, hsum]
  · have hpin : pin_message s mid room =
        ({ s with
            pins := s.pins ++ [(⟨s.nextPinId, mid, room⟩ : Pin)],
            nextPinId := s.nextPinId + 1 }, none) := by
      simp only [pin_message]
      rw [hfind]
    simp only [on_pin_message, hpin]

/-- C2 witness: the amended semantics at the sample store with absent id 7. -/
theorem c2_witness :
    (∀ m ∈ sampleStore.messages, m.id ≠ 7) ∧
    (∀ r ∈ sampleStore.reactions, r.message_id ≠ 7) ∧
    (edit_message sampleStore 7 "u" "t2" = (sampleStore, none) ∧
     on_edit_message sampleStore (some "u") 7 "t2" = (sampleStore, []) ∧
     delete_message sampleStore 7 "u" = (sampleStore, false) ∧
     on_delete_message sampleStore (some "u") 7 = (sampleStore, []) ∧
     on_react sampleStore 7 "u" "x" =
       ({ sampleStore with
           reactions := sampleStore.reactions ++
             [{ id := sampleStore.nextReactionId, message_id := 7
                username := "u", emoji := "x" }]
           nextReactionId := sampleStore.nextReactionId + 1 },
        [Ev.reactions_update 7 [("x", 1)]]) ∧
     on_pin_message sampleStore 7 "Lobby" =
       ({ sampleStore with
           pins := sampleStore.pins ++
             [{ id := sampleStore.nextPinId, message_id := 7, room := "Lobby" }]
           nextPinId := sampleStore.nextPinId + 1 },
        [])) :=
  ⟨by decide, by decide,
    c2_notfound_semantics sampleStore 7 "u" "x" "t2" "Lobby"
      (by decide) (by decide)⟩

/-! ### Sorting lemmas -/

theorem insertAscBy_of_lt_head {α : Type _} (key : α → Nat) (a : α) (l : List α)
    (h : ∀ b ∈ l, key a < key b) : insertAscBy key a l = a :: l := by
  cases l with
  | nil => rfl
  | cons b t =>
      have hb : key a ≤ key b := Nat.le_of_lt (h b (List.mem_cons_self b t))
      simp [insertAscBy, hb]

/-- `ORDER BY id ASC` is the identity on a list already in ascending order. -/
theorem sortAscBy_eq_self {α : Type _} (key : α → Nat) (l : List α)
    (h : l.Pairwise (fun a b => key a < key b)) : sortAscBy key l = l := by
  induction l with
  | nil => rfl
  | cons a t ih =>
      rcases List.pairwise_cons.mp h with ⟨ha, ht⟩
      simp only [sortAscBy]
      rw [ih ht, insertAscBy_of_lt_head key a t ha]

theorem insertDescBy_of_lt_all {α : Type _} (key : α → Nat) (a : α) (l : List α)
    (h : ∀ b ∈ l, key a < key b) : insertDescBy key a l = l ++ [a] := by
  induction l with
  | nil => rfl
  | cons b t ih =>
      have hb : key a < key b := h b (List.mem_cons_self b t)
      have hnb : ¬ (key b ≤ key a) := by omega
      simp only [insertDescBy, if_neg hnb]
      rw [ih (fun c hc => h c (List.mem_cons_of_mem b hc))]
      rfl

/-- `ORDER BY id DESC` is reversal on a list already in ascending order. -/
theorem sortDescBy_eq_reverse {α : Type _} (key : α → Nat) (l : List α)
    (h : l.Pairwise (fun a b => key a < key b)) :
    sortDescBy key l = l.reverse := by
  induction l with
  | nil => rfl
  | cons a t ih =>
      rcases List.pairwise_cons.mp h with ⟨ha, ht⟩
      simp only [sortDescBy]
      rw [ih ht,
        insertDescBy_of_lt_all key a t.reverse
          (fun b hb => ha b (List.mem_reverse.mp hb)),
        List.reverse_cons]

theorem mem_insertAscBy {α : Type _} (key : α → Nat) (a x : α) (l : List α) :
    x ∈ insertAscBy key a l ↔ x = a ∨ x ∈ l := by
  induction l with
  | nil => simp [insertAscBy]
  | cons b t ih =>
      by_cases hb : key a ≤ key b
      · simp [insertAscBy, hb]
      · simp only [insertAscBy, if_neg hb, List.mem_cons, ih]
        tauto

theorem mem_sortAscBy {α : Type _} (key : α → Nat) (l : List α) (x : α) :
    x ∈ sortAscBy key l ↔ x ∈ l := by
  induction l with
  | nil => simp [sortAscBy]
  | cons a t ih => simp [sortAscBy, mem_insertAscBy, ih]

theorem mem_insertDescBy {α : Type _} (key : α → Nat) (a x : α) (l : List α) :
    x ∈ insertDescBy key a l ↔ x = a ∨ x ∈ l := by
  induction l with
  | nil => simp [insertDescBy]
  | cons b t ih =>
      by_cases hb : key b ≤ key a
      · simp [insertDescBy, hb]
      · simp only [insertDescBy, if_neg hb, List.mem_cons, ih]
        tauto

theorem mem_sortDescBy {α : Type _} (key : α → Nat) (l : List α) (x : α) :
    x ∈ sortDescBy key l ↔ x ∈ l := by
  induction l with
  | nil => simp [sortDescBy]
  | cons a t ih => simp [sortDescBy, mem_insertDescBy, ih]

/-! ### persist_message lemmas -/

/-- In a well-formed store, the SELECT-back after the INSERT finds exactly
the inserted row. -/
theorem persist_message_eq (s : Store) (room : Option String) (sender : String)
    (receiver : Option String) (txt : String) (img : Option String)
    (rep : Option Nat) (ts : Nat) (hWF : s.WF) :
    persist_message s room sender receiver txt img rep ts =
      ({ s with
          messages := s.messages ++
            [(⟨s.nextMsgId, room, sender, receiver, txt, img, rep, ts⟩ : Message)],
          nextMsgId := s.nextMsgId + 1 },
       some (⟨s.nextMsgId, room, sender, receiver, txt, img, rep, ts⟩ : Message)) := by
  have hfindold : s.messages.find? (fun m => m.id == s.nextMsgId) = none := by
    rw [List.find?_eq_none]
    intro x hx hb
    have := hWF.2.1 x hx
    simp only [beq_iff_eq] at hb
    omega
  simp only [persist_message]
  rw [List.find?_append, hfindold]
  rw [@List.find?_cons_of_pos _ (fun m => m.id == s.nextMsgId)
    (⟨s.nextMsgId, room, sender, receiver, txt, img, rep, ts⟩ : Message) []
    (by simp)]
  rfl

/-- Appending a row carrying the next AUTOINCREMENT id preserves
well-formedness. -/
theorem append_msg_WF (s : Store) (m : Message) (hWF : s.WF)
    (hid : m.id = s.nextMsgId) :
    ({ s with messages := s.messages ++ [m],
              nextMsgId := s.nextMsgId + 1 } : Store).WF := by
  obtain ⟨h1, h2, h3, h4, h5, h6⟩ := hWF
  refine ⟨?_, ?_, h3, h4, h5, h6⟩
  · rw [List.pairwise_append]
    refine ⟨h1, List.pairwise_singleton _ _, ?_⟩
    intro a ha b hb
    rw [List.mem_singleton] at hb
    subst hb
    rw [hid]
    exact h2 a ha
  · intro x hx
    rcases List.mem_append.mp hx with hx | hx
    · have := h2 x hx
      simp only []
      omega
    · rw [List.mem_singleton] at hx
      subst hx
      simp only []
      omega

/-! ### C10: the room-history cap keeps the oldest messages -/

/-- C10: when a room holds more than `limit` messages, `load_room_messages`
returns exactly the `limit` oldest ones (the ascending prefix), and every
omitted message has an id strictly greater than every returned one. -/
theorem c10_room_cap_truncates_newest (s : Store) (room : String) (limit : Nat)
    (hWF : s.WF) (hov : limit < (roomFilter s.messages room).length) :
    load_room_messages s room limit = (roomFilter s.messages room).take limit ∧
    (load_room_messages s room limit).length = limit ∧
    (load_room_messages s room limit).Pairwise (fun a b => a.id < b.id) ∧
    (∀ a ∈ load_room_messages s room limit,
      ∀ b ∈ (roomFilter s.messages room).drop limit, a.id < b.id) := by
  have hpR : (roomFilter s.messages room).Pairwise (fun a b => a.id < b.id) :=
    List.Pairwise.sublist (List.filter_sublist _) hWF.1
  have heq : load_room_messages s room limit
      = (roomFilter s.messages room).take limit := by
    unfold load_room_messages
    rw [sortAscBy_eq_self _ _ hpR]
  have hps : ((roomFilter s.messages room).take limit
      ++ (roomFilter s.messages room).drop limit).Pairwise
        (fun a b => a.id < b.id) := by
    rw [List.take_append_drop]
    exact hpR
  rcases List.pairwise_append.mp hps with ⟨hp1, _, hcross⟩
  refine ⟨heq, ?_, ?_, ?_⟩
  · rw [heq, List.length_take]
    omega
  · rw [heq]
    exact hp1
  · intro a ha b hb
    rw [heq] at ha
    exact hcross a ha b hb

/-- Concrete two-message room store for the C10 witness. -/
def twoMsgStore : Store :=
  ⟨[⟨1, some "Lobby", "alice", none, "first", none, none, 0⟩,
    ⟨2, some "Lobby", "bob", none, "second", none, none, 1⟩], [], [], 3, 1, 1⟩

/-- C10 witness: with two Lobby messages and limit 1 the oldest is kept. -/
theorem c10_witness :
    twoMsgStore.WF ∧ 1 < (roomFilter twoMsgStore.messages "Lobby").length ∧
    (load_room_messages twoMsgStore "Lobby" 1
        = (roomFilter twoMsgStore.messages "Lobby").take 1 ∧
     (load_room_messages twoMsgStore "Lobby" 1).length = 1 ∧
     (load_room_messages twoMsgStore "Lobby" 1).Pairwise (fun a b => a.id < b.id) ∧
     (∀ a ∈ load_room_messages twoMsgStore "Lobby" 1,
       ∀ b ∈ (roomFilter twoMsgStore.messages "Lobby").drop 1, a.id < b.id)) :=
  ⟨by decide, by decide,
    c10_room_cap_truncates_newest twoMsgStore "Lobby" 1 (by decide) (by decide)⟩

/-! ### C7: send_room ordering and id monotonicity -/

/-- The rows that a sequence of `send_message` events from user `u` to
`room` produces, starting at AUTOINCREMENT id `nid`. -/
def mkRoomMsgs (nid : Nat) (u room : String) (ts : Nat) :
    List String → List Message
  | [] => []
  | txt :: rest =>
      (⟨nid, some room, u, none, txt, none, none, ts⟩ : Message)
        :: mkRoomMsgs (nid + 1) u room ts rest

/-- Folding `on_send_message` over a list of message texts. -/
def sendRoomTexts (s : Store) (u room : String) (ts : Nat) :
    List String → Store
  | [] => s
  | txt :: rest =>
      sendRoomTexts (on_send_message s u room txt none none ts).1 u room ts rest

/-- The store produced by one guarded `on_send_message`. -/
theorem on_send_message_store (s : Store) (u room txt : String)
    (img : Option String) (rep : Option Nat) (ts : Nat)
    (hu : u ≠ "") (hr : room ≠ "") (hWF : s.WF) :
    (on_send_message s u room txt img rep ts).1 =
      { s with
          messages := s.messages ++
            [(⟨s.nextMsgId, some room, u, none, txt, img, rep, ts⟩ : Message)],
          nextMsgId := s.nextMsgId + 1 } := by
  unfold on_send_message
  rw [if_neg (not_or.mpr ⟨hu, hr⟩),
    persist_message_eq s (some room) u none txt img rep ts hWF]

theorem mkRoomMsgs_mem (nid : Nat) (u room : String) (ts : Nat)
    (texts : List String) :
    ∀ m ∈ mkRoomMsgs nid u room ts texts,
      nid ≤ m.id ∧ m.id < nid + texts.length ∧
      m.room = some room ∧ m.receiver = none ∧ m.sender = u := by
  induction texts generalizing nid with
  | nil => intro m hm; cases hm
  | cons txt rest ih =>
      intro m hm
      rcases List.mem_cons.mp hm with rfl | hm
      · refine ⟨Nat.le_refl _, ?_, rfl, rfl, rfl⟩
        simp only [List.length_cons]
        omega
      · have := ih (nid + 1) m hm
        refine ⟨by omega, ?_, this.2.2⟩
        simp only [List.length_cons]
        omega

theorem mkRoomMsgs_pairwise (nid : Nat) (u room : String) (ts : Nat)
    (texts : List String) :
    (mkRoomMsgs nid u room ts texts).Pairwise (fun a b => a.id < b.id) := by
  induction texts generalizing nid with
  | nil => exact List.Pairwise.nil
  | cons txt rest ih =>
      rw [mkRoomMsgs, List.pairwise_cons]
      refine ⟨?_, ih (nid + 1)⟩
      intro m hm
      have := (mkRoomMsgs_mem (nid + 1) u room ts rest m hm).1
      simp only []
      omega

/-- Folding the sends appends exactly the expected rows, in send order. -/
theorem sendRoomTexts_spec (u room : String) (ts : Nat) (texts : List String)
    (hu : u ≠ "") (hr : room ≠ "") :
    ∀ s : Store, s.WF →
      (sendRoomTexts s u room ts texts).messages
          = s.messages ++ mkRoomMsgs s.nextMsgId u room ts texts ∧
      (sendRoomTexts s u room ts texts).WF := by
  induction texts with
  | nil =>
      intro s hWF
      exact ⟨by simp [sendRoomTexts, mkRoomMsgs], hWF⟩
  | cons txt rest ih =>
      intro s hWF
      have hstep := on_send_message_store s u room txt none none ts hu hr hWF
      have hWF' : ((on_send_message s u room txt none none ts).1).WF := by
        rw [hstep]
        exact append_msg_WF s _ hWF rfl
      have hrec := ih (on_send_message s u room txt none none ts).1 hWF'
      constructor
      · rw [show sendRoomTexts s u room ts (txt :: rest)
            = sendRoomTexts (on_send_message s u room txt none none ts).1
                u room ts rest from rfl]
        rw [hrec.1, hstep]
        rw [show ({ s with
            messages := s.messages ++
              [(⟨s.nextMsgId, some room, u, none, txt, none, none, ts⟩ : Message)],
            nextMsgId := s.nextMsgId + 1 } : Store).messages
          = s.messages ++
              [(⟨s.nextMsgId, some room, u, none, txt, none, none, ts⟩ : Message)]
          from rfl]
        rw [List.append_assoc]
        rfl
      · rw [show sendRoomTexts s u room ts (txt :: rest)
            = sendRoomTexts (on_send_message s u room txt none none ts).1
                u room ts rest from rfl]
        exact hrec.2

/-- C7: after any sequence of `send_message` events from one user to one
room, the new rows sit after all previous rows in send order, all ids are
strictly increasing (each append gets an id above everything before it),
and `load_room_messages` returns the ascending-id prefix of the room's
messages, in send order. -/
theorem c7_send_room_ordering (s : Store) (u room : String) (ts : Nat)
    (texts : List String) (limit : Nat)
    (hWF : s.WF) (hu : u ≠ "") (hr : room ≠ "") :
    (sendRoomTexts s u room ts texts).messages
        = s.messages ++ mkRoomMsgs s.nextMsgId u room ts texts ∧
    (sendRoomTexts s u room ts texts).messages.Pairwise
        (fun a b => a.id < b.id) ∧
    (sendRoomTexts s u room ts texts).WF ∧
    roomFilter (sendRoomTexts s u room ts texts).messages room
        = roomFilter s.messages room ++ mkRoomMsgs s.nextMsgId u room ts texts ∧
    load_room_messages (sendRoomTexts s u room ts texts) room limit
        = (roomFilter (sendRoomTexts s u room ts texts).messages room).take limit := by
  obtain ⟨hmsgs, hWF'⟩ := sendRoomTexts_spec u room ts texts hu hr s hWF
  have hpair : (sendRoomTexts s u room ts texts).messages.Pairwise
      (fun a b => a.id < b.id) := hWF'.1
  have hfilterNew : roomFilter (mkRoomMsgs s.nextMsgId u room ts texts) room
      = mkRoomMsgs s.nextMsgId u room ts texts := by
    unfold roomFilter
    rw [List.filter_eq_self]
    intro m hm
    have := mkRoomMsgs_mem s.nextMsgId u room ts texts m hm
    simp [this.2.2.1, this.2.2.2.1]
  refine ⟨hmsgs, hpair, hWF', ?_, ?_⟩
  · rw [hmsgs]
    unfold roomFilter
    rw [List.filter_append]
    unfold roomFilter at hfilterNew
    rw [hfilterNew]
  · unfold load_room_messages
    rw [sortAscBy_eq_self (fun m => m.id)
      (roomFilter (sendRoomTexts s u room ts texts).messages room)
      (List.Pairwise.sublist (List.filter_sublist _) hpair)]

/-- C7 witness: two sends into the empty store. -/
theorem c7_witness :
    emptyStore.WF ∧ ("alice" : String) ≠ "" ∧ ("Lobby" : String) ≠ "" ∧
    ((sendRoomTexts emptyStore "alice" "Lobby" 3 ["one", "two"]).messages
        = emptyStore.messages
          ++ mkRoomMsgs emptyStore.nextMsgId "alice" "Lobby" 3 ["one", "two"] ∧
     (sendRoomTexts emptyStore "alice" "Lobby" 3 ["one", "two"]).messages.Pairwise
        (fun a b => a.id < b.id) ∧
     (sendRoomTexts emptyStore "alice" "Lobby" 3 ["one", "two"]).WF ∧
     roomFilter (sendRoomTexts emptyStore "alice" "Lobby" 3 ["one", "two"]).messages
        "Lobby"
        = roomFilter emptyStore.messages "Lobby"
          ++ mkRoomMsgs emptyStore.nextMsgId "alice" "Lobby" 3 ["one", "two"] ∧
     load_room_messages (sendRoomTexts emptyStore "alice" "Lobby" 3 ["one", "two"])
        "Lobby" 500
        = (roomFilter
            (sendRoomTexts emptyStore "alice" "Lobby" 3 ["one", "two"]).messages
            "Lobby").take 500) :=
  ⟨by decide, by decide, by decide,
    c7_send_room_ordering emptyStore "alice" "Lobby" 3 ["one", "two"] 500
      (by decide) (by decide) (by decide)⟩

/-! ### C5: DM isolation and symmetry -/

theorem dmFilter_comm (l : List Message) (a b : String) :
    dmFilter l a b = dmFilter l b a := by
  unfold dmFilter
  apply List.filter_congr
  intro m hm
  exact Bool.or_comm _ _

/-- The store produced by one guarded `on_send_dm` (independent of the
presence state: persistence happens before the recipient lookup). -/
theorem on_send_dm_store (s : Store) (p : Presence) (sid A B txt : String)
    (img : Option String) (rep : Option Nat) (ts : Nat)
    (hA : A ≠ "") (hB : B ≠ "") (hWF : s.WF) :
    (on_send_dm s p sid A B txt img rep ts).1 =
      { s with
          messages := s.messages ++
            [(⟨s.nextMsgId, none, A, some B, txt, img, rep, ts⟩ : Message)],
          nextMsgId := s.nextMsgId + 1 } := by
  unfold on_send_dm
  rw [if_neg (not_or.mpr ⟨hA, hB⟩),
    persist_message_eq s none A (some B) txt img rep ts hWF]

/-- C5 (amended): a message sent via `send_dm(A,B,...)` is persisted for
every presence state (recipient online or not); it appears in both
`list_dm(A,B)` and `list_dm(B,A)` provided the pair's stored history is
below the 500-row query cap; every DM listing is in ascending id order;
and the message never appears in `load_room_messages` for any room and
limit. -/
theorem c5_dm_isolation (s : Store) (p : Presence) (sid A B txt : String)
    (img : Option String) (rep : Option Nat) (ts : Nat)
    (hWF : s.WF) (hA : A ≠ "") (hB : B ≠ "") :
    (on_send_dm s p sid A B txt img rep ts).1.messages
        = s.messages
          ++ [(⟨s.nextMsgId, none, A, some B, txt, img, rep, ts⟩ : Message)] ∧
    (on_send_dm s p sid A B txt img rep ts).1.WF ∧
    ((dmFilter s.messages A B).length < 500 →
      (⟨s.nextMsgId, none, A, some B, txt, img, rep, ts⟩ : Message)
          ∈ load_dm_history (on_send_dm s p sid A B txt img rep ts).1 A B 500 ∧
      (⟨s.nextMsgId, none, A, some B, txt, img, rep, ts⟩ : Message)
          ∈ load_dm_history (on_send_dm s p sid A B txt img rep ts).1 B A 500) ∧
    (∀ user other n,
      (load_dm_history (on_send_dm s p sid A B txt img rep ts).1 user other n).Pairwise
        (fun a b => a.id < b.id)) ∧
    (∀ room n,
      (⟨s.nextMsgId, none, A, some B, txt, img, rep, ts⟩ : Message)
        ∉ load_room_messages (on_send_dm s p sid A B txt img rep ts).1 room n) := by
  have hstore := on_send_dm_store s p sid A B txt img rep ts hA hB hWF
  have hWF' : (on_send_dm s p sid A B txt img rep ts).1.WF := by
    rw [hstore]
    exact append_msg_WF s _ hWF rfl
  have hmsgs : (on_send_dm s p sid A B txt img rep ts).1.messages
      = s.messages
        ++ [(⟨s.nextMsgId, none, A, some B, txt, img, rep, ts⟩ : Message)] := by
    rw [hstore]
  have hdmAB : dmFilter (on_send_dm s p sid A B txt img rep ts).1.messages A B
      = dmFilter s.messages A B
        ++ [(⟨s.nextMsgId, none, A, some B, txt, img, rep, ts⟩ : Message)] := by
    rw [hmsgs]
    unfold dmFilter
    rw [List.filter_append]
    simp
  refine ⟨hmsgs, hWF', ?_, ?_, ?_⟩
  · intro hcnt
    have hsorted : (dmFilter (on_send_dm s p sid A B txt img rep ts).1.messages A B).Pairwise
        (fun a b => a.id < b.id) :=
      List.Pairwise.sublist (List.filter_sublist _) hWF'.1
    have hAB : load_dm_history (on_send_dm s p sid A B txt img rep ts).1 A B 500
        = dmFilter s.messages A B
          ++ [(⟨s.nextMsgId, none, A, some B, txt, img, rep, ts⟩ : Message)] := by
      unfold load_dm_history
      rw [sortAscBy_eq_self (fun m : Message => m.id) _ hsorted, hdmAB]
      apply List.take_of_length_le
      rw [List.length_append, List.length_singleton]
      omega
    have hmem : (⟨s.nextMsgId, none, A, some B, txt, img, rep, ts⟩ : Message)
        ∈ dmFilter s.messages A B
          ++ [(⟨s.nextMsgId, none, A, some B, txt, img, rep, ts⟩ : Message)] := by
      rw [List.mem_append, List.mem_singleton]
      right
      rfl
    refine ⟨by rw [hAB]; exact hmem, ?_⟩
    have hBAeq : load_dm_history (on_send_dm s p sid A B txt img rep ts).1 B A 500
        = load_dm_history (on_send_dm s p sid A B txt img rep ts).1 A B 500 := by
      unfold load_dm_history
      rw [dmFilter_comm _ B A]
    rw [hBAeq, hAB]
    exact hmem
  · intro user other n
    unfold load_dm_history
    have hsorted : (dmFilter (on_send_dm s p sid A B txt img rep ts).1.messages
        user other).Pairwise (fun a b => a.id < b.id) :=
      List.Pairwise.sublist (List.filter_sublist _) hWF'.1
    rw [sortAscBy_eq_self (fun m : Message => m.id) _ hsorted]
    exact List.Pairwise.sublist (List.take_sublist _ _) hsorted
  · intro room n hmem
    unfold load_room_messages at hmem
    have h1 := List.take_subset _ _ hmem
    rw [mem_sortAscBy] at h1
    have h2 := List.of_mem_filter h1
    simp at h2

/-- C5 witness: a DM from `A` to `B` on the empty store with nobody online. -/
theorem c5_witness :
    emptyStore.WF ∧ ("A" : String) ≠ "" ∧ ("B" : String) ≠ "" ∧
    ((on_send_dm emptyStore emptyPresence "s1" "A" "B" "hi" none none 0).1.messages
        = emptyStore.messages
          ++ [(⟨emptyStore.nextMsgId, none, "A", some "B", "hi", none, none, 0⟩ : Message)] ∧
     (on_send_dm emptyStore emptyPresence "s1" "A" "B" "hi" none none 0).1.WF ∧
     ((dmFilter emptyStore.messages "A" "B").length < 500 →
       (⟨emptyStore.nextMsgId, none, "A", some "B", "hi", none, none, 0⟩ : Message)
           ∈ load_dm_history
             (on_send_dm emptyStore emptyPresence "s1" "A" "B" "hi" none none 0).1
             "A" "B" 500 ∧
       (⟨emptyStore.nextMsgId, none, "A", some "B", "hi", none, none, 0⟩ : Message)
           ∈ load_dm_history
             (on_send_dm emptyStore emptyPresence "s1" "A" "B" "hi" none none 0).1
             "B" "A" 500) ∧
     (∀ user other n,
       (load_dm_history
         (on_send_dm emptyStore emptyPresence "s1" "A" "B" "hi" none none 0).1
         user other n).Pairwise (fun a b => a.id < b.id)) ∧
     (∀ room n,
       (⟨emptyStore.nextMsgId, none, "A", some "B", "hi", none, none, 0⟩ : Message)
         ∉ load_room_messages
             (on_send_dm emptyStore emptyPresence "s1" "A" "B" "hi" none none 0).1
             room n)) :=
  ⟨by decide, by decide, by decide,
    c5_dm_isolation emptyStore emptyPresence "s1" "A" "B" "hi" none none 0
      (by decide) (by decide) (by decide)⟩

/-- `k` DM rows from `A` to `B` with consecutive ids starting at `nid`. -/
def mkDmMsgs : Nat → Nat → List Message
  | _, 0 => []
  | nid, Nat.succ k =>
      (⟨nid, none, "A", some "B", "m", none, none, 0⟩ : Message)
        :: mkDmMsgs (nid + 1) k

/-- A store whose `A`-`B` conversation already holds 500 messages. -/
def dm500Store : Store := ⟨mkDmMsgs 1 500, [], [], 501, 1, 1⟩

set_option maxRecDepth 10000 in
/-- C5 (counterexample): with 500 prior DMs between `A` and `B`, a fresh
`send_dm(A,B,...)` is persisted but does not appear in `list_dm(A,B)` —
the ascending-order LIMIT 500 cuts off the newest message. -/
theorem c5_limit_counterexample :
    (⟨501, none, "A", some "B", "late", none, none, 9⟩ : Message)
        ∈ (on_send_dm dm500Store emptyPresence "sidA" "A" "B" "late" none none 9).1.messages ∧
    ¬ ((⟨501, none, "A", some "B", "late", none, none, 9⟩ : Message)
        ∈ load_dm_history
            (on_send_dm dm500Store emptyPresence "sidA" "A" "B" "late" none none 9).1
            "A" "B" 500) := by decide

/-! ### C6: authorized delete removes the message and its reactions -/

/-- C6: for a stored message M, `delete(M.id, M.sender)` succeeds, removes
M and every reaction on M in the same step (keeping all other messages),
empties the reaction summary for M.id, and a later `get_pinned` simply
omits the dangling pin — it can never surface the deleted id, so no fatal
error arises. -/
theorem c6_authorized_delete_complete (s : Store) (M : Message)
    (hWF : s.WF) (hM : M ∈ s.messages) :
    delete_message s M.id M.sender =
      ({ s with
          messages := s.messages.filter (fun m => !(m.id == M.id)),
          reactions := s.reactions.filter (fun r => !(r.message_id == M.id)) },
       true) ∧
    M ∉ (delete_message s M.id M.sender).1.messages ∧
    (∀ m ∈ s.messages, m.id ≠ M.id →
      m ∈ (delete_message s M.id M.sender).1.messages) ∧
    (∀ r ∈ (delete_message s M.id M.sender).1.reactions, r.message_id ≠ M.id) ∧
    reactions_summary (delete_message s M.id M.sender).1 M.id = [] ∧
    (∀ room, ∀ m ∈ get_pinned (delete_message s M.id M.sender).1 room,
      m.id ≠ M.id) := by
  have hfind : s.messages.find? (fun m => m.id == M.id) = some M :=
    find?_key_eq_of_pairwise (fun m => m.id) s.messages M hWF.1 hM
  have hdel : delete_message s M.id M.sender =
      ({ s with
          messages := s.messages.filter (fun m => !(m.id == M.id)),
          reactions := s.reactions.filter (fun r => !(r.message_id == M.id)) },
       true) := by
    simp only [delete_message, hfind]
    rw [if_neg (show ¬ (M.sender ≠ M.sender) from fun h => h rfl)]
  refine ⟨hdel, ?_, ?_, ?_, ?_, ?_⟩
  · rw [hdel]
    intro hmem
    have := List.of_mem_filter hmem
    simp at this
  · intro m hm hne
    rw [hdel]
    exact List.mem_filter.mpr ⟨hm, by simp [hne]⟩
  · intro r hr
    rw [hdel] at hr
    have := List.of_mem_filter hr
    simp at this
    exact this
  · rw [hdel]
    simp only [reactions_summary]
    have hnil : ((s.reactions.filter (fun r => !(r.message_id == M.id))).filter
        (fun r => r.message_id == M.id)) = [] := by
      rw [List.filter_eq_nil_iff]
      intro r hr
      have := List.of_mem_filter hr
      simp at this
      simp [this]
    rw [hnil]
    rfl
  · intro room m hm
    rw [hdel] at hm
    unfold get_pinned at hm
    have h1 := List.take_subset _ _ hm
    rcases List.mem_filterMap.mp h1 with ⟨pin, _, hfm⟩
    have hmem := List.mem_of_find?_eq_some hfm
    have := List.of_mem_filter hmem
    simp at this
    exact this

/-- Concrete store for the C6 witness: one message with one reaction and
one pin. -/
def c6Store : Store :=
  ⟨[sampleMsg], [⟨1, 1, "bob", "up"⟩], [⟨1, 1, "Lobby"⟩], 2, 2, 2⟩

/-- C6 witness: `alice` deletes her pinned, reacted-to message. -/
theorem c6_witness :
    c6Store.WF ∧ sampleMsg ∈ c6Store.messages ∧
    (delete_message c6Store sampleMsg.id sampleMsg.sender =
      ({ c6Store with
          messages := c6Store.messages.filter (fun m => !(m.id == sampleMsg.id)),
          reactions := c6Store.reactions.filter
            (fun r => !(r.message_id == sampleMsg.id)) },
       true) ∧
     sampleMsg ∉ (delete_message c6Store sampleMsg.id sampleMsg.sender).1.messages ∧
     (∀ m ∈ c6Store.messages, m.id ≠ sampleMsg.id →
       m ∈ (delete_message c6Store sampleMsg.id sampleMsg.sender).1.messages) ∧
     (∀ r ∈ (delete_message c6Store sampleMsg.id sampleMsg.sender).1.reactions,
       r.message_id ≠ sampleMsg.id) ∧
     reactions_summary (delete_message c6Store sampleMsg.id sampleMsg.sender).1
       sampleMsg.id = [] ∧
     (∀ room, ∀ m ∈ get_pinned
         (delete_message c6Store sampleMsg.id sampleMsg.sender).1 room,
       m.id ≠ sampleMsg.id)) :=
  ⟨by decide, by decide,
    c6_authorized_delete_complete c6Store sampleMsg (by decide) (by decide)⟩

/-! ### C8: room/receiver exclusivity invariant -/

/-- Exactly one of `room` and `receiver` is set. -/
def msgExcl (m : Message) : Prop :=
  (m.room.isSome = true ∧ m.receiver = none) ∨
  (m.room = none ∧ m.receiver.isSome = true)

instance (m : Message) : Decidable (msgExcl m) := by
  unfold msgExcl
  infer_instance

/-- Every message row in the store has exactly one of `room`/`receiver`. -/
def ExclInv (s : Store) : Prop := ∀ m ∈ s.messages, msgExcl m

instance (s : Store) : Decidable (ExclInv s) := by
  unfold ExclInv
  infer_instance

theorem ExclInv_of_messages_eq (s s2 : Store) (hEx : ExclInv s)
    (hmsg : s2.messages = s.messages) : ExclInv s2 := by
  intro m hm
  rw [hmsg] at hm
  exact hEx m hm

theorem ExclInv_of_messages_append (s s2 : Store) (row : Message)
    (hEx : ExclInv s) (hmsg : s2.messages = s.messages ++ [row])
    (hrow : msgExcl row) : ExclInv s2 := by
  intro m hm
  rw [hmsg] at hm
  rcases List.mem_append.mp hm with h | h
  · exact hEx m h
  · rw [List.mem_singleton] at h
    subst h
    exact hrow

/-- The store part of each mutating handler: unchanged, or a single
well-shaped row appended, or a body-only map, or a filter. -/
theorem on_send_message_fst (s : Store) (u room txt : String)
    (img : Option String) (rep : Option Nat) (ts : Nat) :
    (on_send_message s u room txt img rep ts).1 = s ∨
    (on_send_message s u room txt img rep ts).1 =
      { s with
          messages := s.messages ++
            [(⟨s.nextMsgId, some room, u, none, txt, img, rep, ts⟩ : Message)],
          nextMsgId := s.nextMsgId + 1 } := by
  by_cases hg : u = "" ∨ room = ""
  · left
    unfold on_send_message
    rw [if_pos hg]
  · right
    simp only [on_send_message, persist_message, if_neg hg]
    split
    · next s2 m2 heq =>
        injection heq with h1 h2
        subst h1
        rfl
    · next s2 heq =>
        injection heq with h1 h2
        subst h1
        rfl

theorem on_send_dm_fst (s : Store) (p : Presence) (sid A B txt : String)
    (img : Option String) (rep : Option Nat) (ts : Nat) :
    (on_send_dm s p sid A B txt img rep ts).1 = s ∨
    (on_send_dm s p sid A B txt img rep ts).1 =
      { s with
          messages := s.messages ++
            [(⟨s.nextMsgId, none, A, some B, txt, img, rep, ts⟩ : Message)],
          nextMsgId := s.nextMsgId + 1 } := by
  by_cases hg : A = "" ∨ B = ""
  · left
    unfold on_send_dm
    rw [if_pos hg]
  · right
    simp only [on_send_dm, persist_message, if_neg hg]
    split
    · next s2 m2 heq =>
        injection heq with h1 h2
        subst h1
        rfl
    · next s2 heq =>
        injection heq with h1 h2
        subst h1
        rfl

theorem on_join_room_fst (s : Store) (p : Presence) (sid u room : String)
    (ts : Nat) :
    (on_join_room s p sid u room ts).1 = s ∨
    (on_join_room s p sid u room ts).1 =
      { s with
          messages := s.messages ++
            [(⟨s.nextMsgId, some room, "System", none,
               u ++ " joined " ++ room, none, none, ts⟩ : Message)],
          nextMsgId := s.nextMsgId + 1 } := by
  by_cases hg : u = ""
  · left
    unfold on_join_room
    rw [if_pos hg]
  · right
    simp only [on_join_room, persist_message, if_neg hg]
    split
    · next s2 m2 heq =>
        injection heq with h1 h2
        subst h1
        rfl
    · next s2 heq =>
        injection heq with h1 h2
        subst h1
        rfl

theorem startup_welcome_fst (s : Store) (ts : Nat) :
    startup_welcome s ts = s ∨
    startup_welcome s ts =
      { s with
          messages := s.messages ++
            [(⟨s.nextMsgId, some "Lobby", "System", none,
               "Welcome to CHATHUB", none, none, ts⟩ : Message)],
          nextMsgId := s.nextMsgId + 1 } := by
  by_cases hg : (s.messages.length == 0) = true
  · right
    simp only [startup_welcome, persist_message, if_pos hg]
  · left
    unfold startup_welcome
    rw [if_neg hg]

theorem edit_message_fst (s : Store) (mid : Nat) (u t : String) :
    (edit_message s mid u t).1 = s ∨
    (edit_message s mid u t).1 =
      { s with
          messages := s.messages.map
            (fun m => if m.id == mid then { m with message := t } else m) } := by
  unfold edit_message
  split
  · left
    rfl
  · split
    · left
      rfl
    · right
      rfl

theorem delete_message_fst (s : Store) (mid : Nat) (u : String) :
    (delete_message s mid u).1 = s ∨
    (delete_message s mid u).1 =
      { s with
          messages := s.messages.filter (fun m => !(m.id == mid)),
          reactions := s.reactions.filter (fun r => !(r.message_id == mid)) } := by
  unfold delete_message
  split
  · left
    rfl
  · split
    · left
      rfl
    · right
      rfl

theorem on_edit_message_store (s : Store) (u t : String) (mid : Nat) :
    (on_edit_message s (some u) mid t).1 = (edit_message s mid u t).1 := by
  show (match edit_message s mid u t with
        | (s', some m) => (s', [Ev.update_message m])
        | (s', none) => (s', [])).1 = (edit_message s mid u t).1
  rcases hE : edit_message s mid u t with ⟨s2, o⟩
  cases o <;> rfl

theorem on_delete_message_store (s : Store) (u : String) (mid : Nat) :
    (on_delete_message s (some u) mid).1 = (delete_message s mid u).1 := by
  show (match delete_message s mid u with
        | (s', true) => (s', [Ev.delete_message mid])
        | (s', false) => (s', [])).1 = (delete_message s mid u).1
  rcases hD : delete_message s mid u with ⟨s2, o⟩
  cases o <;> rfl

theorem toggle_reaction_messages (s : Store) (mid : Nat) (u e : String) :
    (toggle_reaction s mid u e).1.messages = s.messages := by
  unfold toggle_reaction
  split <;> rfl

theorem on_react_messages (s : Store) (mid : Nat) (u e : String) :
    (on_react s mid u e).1.messages = s.messages := by
  unfold on_react
  exact toggle_reaction_messages s mid u e

theorem on_pin_message_messages (s : Store) (mid : Nat) (room : String) :
    (on_pin_message s mid room).1.messages = s.messages := by
  unfold on_pin_message pin_message
  split
  · next s2 m2 heq =>
      injection heq with h1 h2
      subst h1
      rfl
  · next s2 heq =>
      injection heq with h1 h2
      subst h1
      rfl

/-- C8: every row any handler inserts (room send, DM send, join system
message, startup welcome) has exactly one of `room`/`receiver` set, and
every mutating handler preserves the invariant for all existing rows. -/
theorem c8_room_receiver_exclusivity (s : Store) (p : Presence)
    (sid u room txt A B e : String) (img : Option String) (rep : Option Nat)
    (ts : Nat) (requester : Option String) (mid : Nat)
    (hEx : ExclInv s) :
    ExclInv (on_send_message s u room txt img rep ts).1 ∧
    ExclInv (on_send_dm s p sid A B txt img rep ts).1 ∧
    ExclInv (on_join_room s p sid u room ts).1 ∧
    ExclInv (startup_welcome s ts) ∧
    ExclInv (on_edit_message s requester mid txt).1 ∧
    ExclInv (on_delete_message s requester mid).1 ∧
    ExclInv (on_react s mid u e).1 ∧
    ExclInv (on_pin_message s mid room).1 := by
  refine ⟨?_, ?_, ?_, ?_, ?_, ?_, ?_, ?_⟩
  · rcases on_send_message_fst s u room txt img rep ts with h | h
    · exact ExclInv_of_messages_eq s _ hEx (by rw [h])
    · exact ExclInv_of_messages_append s _
        (⟨s.nextMsgId, some room, u, none, txt, img, rep, ts⟩ : Message)
        hEx (by rw [h]) (Or.inl ⟨rfl, rfl⟩)
  · rcases on_send_dm_fst s p sid A B txt img rep ts with h | h
    · exact ExclInv_of_messages_eq s _ hEx (by rw [h])
    · exact ExclInv_of_messages_append s _
        (⟨s.nextMsgId, none, A, some B, txt, img, rep, ts⟩ : Message)
        hEx (by rw [h]) (Or.inr ⟨rfl, rfl⟩)
  · rcases on_join_room_fst s p sid u room ts with h | h
    · exact ExclInv_of_messages_eq s _ hEx (by rw [h])
    · exact ExclInv_of_messages_append s _
        (⟨s.nextMsgId, some room, "System", none,
          u ++ " joined " ++ room, none, none, ts⟩ : Message)
        hEx (by rw [h]) (Or.inl ⟨rfl, rfl⟩)
  · rcases startup_welcome_fst s ts with h | h
    · exact ExclInv_of_messages_eq s _ hEx (by rw [h])
    · exact ExclInv_of_messages_append s _
        (⟨s.nextMsgId, some "Lobby", "System", none,
          "Welcome to CHATHUB", none, none, ts⟩ : Message)
        hEx (by rw [h]) (Or.inl ⟨rfl, rfl⟩)
  · cases requester with
    | none => exact ExclInv_of_messages_eq s _ hEx rfl
    | some q =>
        rcases edit_message_fst s mid q txt with h | h
        · exact ExclInv_of_messages_eq s _ hEx
            (by rw [on_edit_message_store, h])
        · intro m hm
          rw [on_edit_message_store, h] at hm
          rcases List.mem_map.mp hm with ⟨m0, hm0, heq⟩
          subst heq
          by_cases hc : (m0.id == mid) = true
          · simp only [if_pos hc]
            exact hEx m0 hm0
          · simp only [if_neg hc]
            exact hEx m0 hm0
  · cases requester with
    | none => exact ExclInv_of_messages_eq s _ hEx rfl
    | some q =>
        rcases delete_message_fst s mid q with h | h
        · exact ExclInv_of_messages_eq s _ hEx
            (by rw [on_delete_message_store, h])
        · intro m hm
          rw [on_delete_message_store, h] at hm
          exact hEx m (List.mem_filter.mp hm).1
  · exact ExclInv_of_messages_eq s _ hEx (on_react_messages s mid u e)
  · exact ExclInv_of_messages_eq s _ hEx (on_pin_message_messages s mid room)

/-- C8 witness: all eight handlers applied at the one-message sample store. -/
theorem c8_witness :
    ExclInv sampleStore ∧
    (ExclInv (on_send_message sampleStore "alice" "Lobby" "x" none none 1).1 ∧
     ExclInv (on_send_dm sampleStore emptyPresence "s1" "A" "B" "x" none none 1).1 ∧
     ExclInv (on_join_room sampleStore emptyPresence "s1" "alice" "Lobby" 1).1 ∧
     ExclInv (startup_welcome sampleStore 1) ∧
     ExclInv (on_edit_message sampleStore (some "alice") 1 "x").1 ∧
     ExclInv (on_delete_message sampleStore (some "alice") 1).1 ∧
     ExclInv (on_react sampleStore 1 "alice" "up").1 ∧
     ExclInv (on_pin_message sampleStore 1 "Lobby").1) :=
  ⟨by decide,
    c8_room_receiver_exclusivity sampleStore emptyPresence "s1" "alice" "Lobby"
      "x" "A" "B" "up" none none 1 (some "alice") 1 (by decide)⟩

/-! ### C9: search semantics -/

/-- The spec's query semantics, written from the spec's words: `body`
contains `q` as an (ASCII-)case-insensitive substring.  To be compared with
the `LIKE`-based `search_room` of the source. -/
def containsCI (body q : String) : Prop :=
  (q.toList.map Char.toLower) <:+: (body.toList.map Char.toLower)

instance (body q : String) : Decidable (containsCI body q) := by
  unfold containsCI
  exact List.decidableInfix _ _

theorem anySuffix_iff (f : List Char → Bool) (sl : List Char) :
    anySuffix f sl = true ↔ ∃ t, t <:+ sl ∧ f t = true := by
  induction sl with
  | nil =>
      constructor
      · intro h
        exact ⟨[], List.suffix_refl [], h⟩
      · rintro ⟨t, ht, hf⟩
        rw [List.suffix_nil.mp ht] at hf
        exact hf
  | cons d sl ih =>
      simp only [anySuffix, Bool.or_eq_true, ih]
      constructor
      · rintro (h | ⟨t, ht, hf⟩)
        · exact ⟨d :: sl, List.suffix_refl _, h⟩
        · exact ⟨t, ht.trans (List.suffix_cons d sl), hf⟩
      · rintro ⟨t, ht, hf⟩
        rcases List.suffix_cons_iff.mp ht with rfl | ht'
        · exact Or.inl hf
        · exact Or.inr ⟨t, ht', hf⟩

theorem likeMatch_percent_any (sl : List Char) : likeMatch ['%'] sl = true := by
  simp only [likeMatch, eq_self_iff_true, if_true]
  rw [anySuffix_iff]
  exact ⟨[], List.nil_suffix, rfl⟩

/-- A wildcard-free pattern followed by `%` matches exactly the strings
with the pattern as a case-insensitive ASCII prefix. -/
theorem likeMatch_plain_percent (ql : List Char)
    (hq : ∀ c ∈ ql, c ≠ '%' ∧ c ≠ '_') (sl : List Char) :
    likeMatch (ql ++ ['%']) sl = true
      ↔ (ql.map Char.toLower) <+: (sl.map Char.toLower) := by
  induction ql generalizing sl with
  | nil =>
      simp only [List.nil_append, List.map_nil]
      constructor
      · intro _
        exact List.nil_prefix
      · intro _
        exact likeMatch_percent_any sl
  | cons c ql ih =>
      have hc := hq c (List.mem_cons_self c ql)
      cases sl with
      | nil =>
          simp only [List.cons_append, likeMatch, if_neg hc.1, List.map_cons,
            List.map_nil]
          simp [List.prefix_nil]
      | cons d sl =>
          simp only [List.cons_append, likeMatch, if_neg hc.1, if_neg hc.2,
            Bool.and_eq_true, List.map_cons, List.cons_prefix_cons,
            charEqCI, beq_iff_eq, List.append_eq]
          rw [ih (fun x hx => hq x (List.mem_cons_of_mem _ hx))]

theorem suffix_map_exists (f : Char → Char) (sl t2 : List Char)
    (h : t2 <:+ sl.map f) : ∃ t, t <:+ sl ∧ t2 = t.map f := by
  induction sl with
  | nil =>
      rw [List.map_nil] at h
      exact ⟨[], List.suffix_refl _, by simp [List.suffix_nil.mp h]⟩
  | cons d sl ih =>
      rw [List.map_cons] at h
      rcases List.suffix_cons_iff.mp h with rfl | h'
      · exact ⟨d :: sl, List.suffix_refl _, by simp⟩
      · rcases ih h' with ⟨t, ht, rfl⟩
        exact ⟨t, ht.trans (List.suffix_cons d sl), rfl⟩

/-- For wildcard-free `q`, the `LIKE` pattern of `search_room` coincides
with case-insensitive substring containment. -/
theorem likeMatch_pattern_iff (q : String)
    (hq : ∀ c ∈ q.toList, c ≠ '%' ∧ c ≠ '_') (body : String) :
    likeMatch ('%' :: q.toList ++ ['%']) body.toList = true
      ↔ containsCI body q := by
  unfold containsCI
  simp only [likeMatch, eq_self_iff_true, if_true, List.append_eq]
  rw [anySuffix_iff]
  constructor
  · rintro ⟨t, ht, hf⟩
    have hpre := (likeMatch_plain_percent q.toList hq t).mp hf
    exact List.infix_iff_prefix_suffix.mpr
      ⟨t.map Char.toLower, hpre, ht.map Char.toLower⟩
  · intro h
    rcases List.infix_iff_prefix_suffix.mp h with ⟨t2, hpre, hsuf⟩
    rcases suffix_map_exists Char.toLower body.toList t2 hsuf with ⟨t, ht, rfl⟩
    exact ⟨t, ht, (likeMatch_plain_percent q.toList hq t).mpr hpre⟩

/-- C9 (amended): for queries without the LIKE metacharacters `%` and `_`,
`search_room` returns exactly the room's messages whose body contains the
query as an (ASCII-)case-insensitive substring, newest first (descending
id), capped at 200 rows; and under the room/receiver invariant it can
never return a DM.  A query containing `%` or `_` instead keeps its SQL
LIKE wildcard meaning. -/
theorem c9_search_semantics (s : Store) (room q : String)
    (hWF : s.WF) (hEx : ExclInv s)
    (hq : ∀ c ∈ q.toList, c ≠ '%' ∧ c ≠ '_') :
    search_room s room q =
      ((s.messages.filter (fun m =>
          m.room == some room && decide (containsCI m.message q))).reverse).take 200 ∧
    (search_room s room q).Pairwise (fun a b => b.id < a.id) ∧
    (search_room s room q).length ≤ 200 ∧
    (∀ m ∈ search_room s room q,
      m.room = some room ∧ m.receiver = none ∧ containsCI m.message q) := by
  have hbool : ∀ body : String,
      likeMatch ('%' :: q.toList ++ ['%']) body.toList
        = decide (containsCI body q) := by
    intro body
    by_cases hc : containsCI body q
    · rw [(likeMatch_pattern_iff q hq body).mpr hc, decide_eq_true hc]
    · rw [decide_eq_false hc]
      exact Bool.eq_false_iff.mpr
        (fun hl => hc ((likeMatch_pattern_iff q hq body).mp hl))
  have heqf : s.messages.filter (fun m =>
        m.room == some room && likeMatch ('%' :: q.toList ++ ['%']) m.message.toList)
      = s.messages.filter (fun m =>
        m.room == some room && decide (containsCI m.message q)) := by
    apply List.filter_congr
    intro m _
    rw [hbool m.message]
  have hpair : (s.messages.filter (fun m =>
      m.room == some room && decide (containsCI m.message q))).Pairwise
        (fun a b => a.id < b.id) :=
    List.Pairwise.sublist (List.filter_sublist _) hWF.1
  have hsr : search_room s room q =
      ((s.messages.filter (fun m =>
          m.room == some room && decide (containsCI m.message q))).reverse).take 200 := by
    unfold search_room
    rw [heqf, sortDescBy_eq_reverse (fun m : Message => m.id) _ hpair]
  refine ⟨hsr, ?_, ?_, ?_⟩
  · rw [hsr]
    refine List.Pairwise.sublist (List.take_sublist _ _) ?_
    exact List.pairwise_reverse.mpr hpair
  · rw [hsr]
    exact List.length_take_le _ _
  · intro m hm
    rw [hsr] at hm
    have h1 := List.take_subset _ _ hm
    rw [List.mem_reverse] at h1
    have h2 := List.mem_filter.mp h1
    have h3 := h2.2
    simp only [Bool.and_eq_true, beq_iff_eq, decide_eq_true_eq] at h3
    refine ⟨h3.1, ?_, h3.2⟩
    rcases hEx m h2.1 with h | h
    · exact h.2
    · rw [h3.1] at h
      cases h.1

/-- Concrete store for the C9 theorems: one Lobby message with body `ab`. -/
def c9Store : Store :=
  ⟨[⟨1, some "Lobby", "alice", none, "ab", none, none, 0⟩], [], [], 2, 1, 1⟩

/-- C9 (counterexample): the query is interpolated into a LIKE pattern, so
`_` acts as a single-character wildcard: searching `Lobby` for `a_`
returns the message whose body is `ab`, although `ab` does not contain the
substring `a_` — search is not substring matching for every query string. -/
theorem c9_wildcard_counterexample :
    (⟨1, some "Lobby", "alice", none, "ab", none, none, 0⟩ : Message)
        ∈ search_room c9Store "Lobby" "a_" ∧
    ¬ containsCI "ab" "a_" := by decide

/-- C9 witness: the amended semantics at the concrete store with the
wildcard-free query `B`. -/
theorem c9_witness :
    c9Store.WF ∧ ExclInv c9Store ∧
    (∀ c ∈ ("B" : String).toList, c ≠ '%' ∧ c ≠ '_') ∧
    (search_room c9Store "Lobby" "B" =
      ((c9Store.messages.filter (fun m =>
          m.room == some "Lobby" && decide (containsCI m.message "B"))).reverse).take 200 ∧
     (search_room c9Store "Lobby" "B").Pairwise (fun a b => b.id < a.id) ∧
     (search_room c9Store "Lobby" "B").length ≤ 200 ∧
     (∀ m ∈ search_room c9Store "Lobby" "B",
       m.room = some "Lobby" ∧ m.receiver = none ∧ containsCI m.message "B")) :=
  ⟨by decide, by decide, by decide,
    c9_search_semantics c9Store "Lobby" "B" (by decide) (by decide) (by decide)⟩

end Chathub
